import Mathlib

/-!
Verification of `extras/python/audio2mozzi.py` (Mozzi raw-audio-to-table
converter): a shallow embedding of its conversion pipeline, and theorems
settling the specified properties against it.

Modelling conventions:
* Python `int` is `ℤ`; Python `float` values are modelled as `ℚ`
  (the script only ever manipulates them with `*`, `+`, `/`, `math.trunc`
  and comparison with integer literals, all of which agree with exact
  rational arithmetic on the inputs considered here).
* The byte buffer of the input file is a `List Nat` of raw byte values
  (each in `[0, 256)`).
* `random.choice((32, 34))` is modelled by threading an explicit stream
  (`List ℤ`) of pre-drawn choices through the conversion loop; consuming
  an element of the stream corresponds to one invocation of
  `random.choice`.
-/

set_option autoImplicit false

namespace Audio2Mozzi

/-- `max_output_value = 2 << (args.output_bits - 2)` (source line 78);
"Halved because signed". -/
def max_output_value (output_bits : Nat) : ℤ :=
  ((2 <<< (output_bits - 2) : Nat) : ℤ)

/-- Python `math.trunc` on an exact rational: truncation toward zero. -/
def pytrunc (q : ℚ) : ℤ :=
  if 0 ≤ q then ⌊q⌋ else ⌈q⌉

/-- The per-value rescaling done inside the conversion loop (source lines
82-85): `math.trunc((value * max_output_value) + 0.5)` when
`args.input_encoding == "float"`, the value unchanged otherwise. -/
def rescale (input_encoding : String) (output_bits : Nat) (value : ℚ) : ℚ :=
  if input_encoding = "float" then
    ((pytrunc (value * ((max_output_value output_bits : ℤ) : ℚ) + 1/2) : ℤ) : ℚ)
  else value

/-- The conversion loop of `float2mozzi` (source lines 80-94).  Each
iteration re-binds `cnt_33 = 0` (source line 81, inside the `for` body),
appends the rescaled value, and then runs the dither check: if the input
value equals `33`, increment `cnt_33`; when it reaches `3`, append a
random choice from `(32, 34)` (taken here from the head of the `choices`
stream) and reset the counter.  The stream is passed along unchanged on
every path that does not invoke `random.choice`. -/
def convertGo (input_encoding : String) (output_bits : Nat) :
    List ℚ → List ℤ → List ℚ
  | [], _ => []
  | value :: rest, choices =>
    let cnt_33 : Nat := 0
    let rescaled := rescale input_encoding output_bits value
    if value = 33 then
      let cnt_33 := cnt_33 + 1
      if cnt_33 = 3 then
        match choices with
        | c :: cs => rescaled :: ((c : ℚ)) :: convertGo input_encoding output_bits rest cs
        | [] => rescaled :: convertGo input_encoding output_bits rest []
      else rescaled :: convertGo input_encoding output_bits rest choices
    else rescaled :: convertGo input_encoding output_bits rest choices

/-- The optional symmetry pass (source lines 95-102): if
`-max_output_value - 1` occurs in `out_values`, remap every element by
linear interpolation from `[in_min, in_max]` to `[out_min, out_max]`. -/
def make_symmetrical_pass (max_out : ℤ) (out_values : List ℚ) : List ℚ :=
  let value_to_remove : ℚ := -((max_out : ℤ) : ℚ) - 1
  if value_to_remove ∈ out_values then
    let in_min := value_to_remove
    let in_max : ℚ := ((max_out : ℤ) : ℚ)
    let out_max : ℚ := ((max_out : ℤ) : ℚ)
    let out_min : ℚ := -((max_out : ℤ) : ℚ)
    out_values.map
      (fun value => (value - in_min) * (out_max - out_min) / (in_max - in_min) + out_min)
  else out_values

/-- Little-endian value of a list of bytes. -/
def leValue : List Nat → Nat
  | [] => 0
  | b :: rest => b + 256 * leValue rest

/-- Two's-complement reinterpretation of an unsigned `numBytes`-byte value
as a signed integer (the `array` module's `"b"`/`"h"`/`"i"` type codes). -/
def toSigned (numBytes : Nat) (n : Nat) : ℤ :=
  if n < 2 ^ (8 * numBytes - 1) then (n : ℤ) else (n : ℤ) - 2 ^ (8 * numBytes)

/-- One decoding step per full item of `itemsize` bytes; a trailing chunk
of fewer than `itemsize` bytes is dropped.  `fuel` (initially the buffer
length) makes the recursion structural. -/
def decodeGo (itemsize : Nat) : Nat → List Nat → List ℤ
  | 0, _ => []
  | fuel + 1, bytes =>
    if 0 < itemsize ∧ itemsize ≤ bytes.length then
      toSigned itemsize (leValue (bytes.take itemsize)) ::
        decodeGo itemsize fuel (bytes.drop itemsize)
    else []

/-- The decoder (source lines 45-62): `num_input_values` is
`int(size / (bits / 8))`, i.e. the number of complete items in the
buffer, and `array.fromfile` reads exactly that many signed fixed-width
items (the `EOFError` branch is unreachable because the byte count was
just measured); the trailing partial item, if any, is never read. -/
def decodeInts (itemsize : Nat) (bytes : List Nat) : List ℤ :=
  decodeGo itemsize bytes.length bytes

/-- `num_input_values = int(input_path.stat().st_size / (args.input_bits / 8))`
(source lines 46-48): float division of the byte count by the exact item
size, truncated, i.e. floor division. -/
def num_input_values (input_bits : Nat) (byteLength : Nat) : Nat :=
  byteLength / (input_bits / 8)

/-- `array_type` selection (source lines 50-56). -/
def array_type (input_encoding : String) (input_bits : Nat) : String :=
  if input_bits = 8 then "b"
  else if input_bits = 16 then "h"
  else if input_bits = 32 then (if input_encoding = "float" then "f" else "i")
  else ""

/-- The argparse layer (source lines 119-139) validates each option
against its own `choices` tuple independently; no bits/encoding
combination is ever checked. -/
def args_accepted (input_encoding : String) (input_bits output_bits : Nat) : Bool :=
  (input_encoding = "float" || input_encoding = "int")
    && (input_bits = 8 || input_bits = 16 || input_bits = 32)
    && (output_bits = 8 || output_bits = 16 || output_bits = 32)

/-- The numeric part of `float2mozzi` end to end, for the integer-coded
array types (`"b"`, `"h"`, `"i"`; the `"f"` type code, reachable only for
float/32-bit input, decodes IEEE-754 and is outside this model): decode
the byte buffer, record `len(in_values)` (the value written as the
`NUM_CELLS` macro, source line 73, before the conversion loop runs),
run the conversion loop, then the optional symmetry pass. -/
def float2mozzi_values (input_encoding : String) (input_bits output_bits : Nat)
    (bytes : List Nat) (choices : List ℤ) (make_symmetrical : Bool) :
    Nat × List ℚ :=
  let in_values : List ℚ := (decodeInts (input_bits / 8) bytes).map (fun z => ((z : ℤ) : ℚ))
  let num_cells := in_values.length
  let out_values := convertGo input_encoding output_bits in_values choices
  let out_values :=
    if make_symmetrical then make_symmetrical_pass (max_output_value output_bits) out_values
    else out_values
  (num_cells, out_values)

/-- Whether a list contains three consecutive occurrences of `33`. -/
def hasTriple33 : List ℚ → Bool
  | a :: b :: c :: rest =>
    if a = 33 ∧ b = 33 ∧ c = 33 then true else hasTriple33 (b :: c :: rest)
  | _ => false

/-- Table-name derivation (source lines 64-68):
`output_path.stem.replace("-", "_").upper()` when `--table-name` is not
given. -/
def derive_tablename (stem : String) : String :=
  (stem.replace "-" "_").toUpper

/-- Greedy filling of already-split words into lines of at most `width`
columns (the wrapping `textwrap.fill` performs on the table text: the
text contains single spaces only and every chunk is shorter than the
width, so neither whitespace collapsing nor long-word breaking comes
into play). -/
def wrapGo (width : Nat) : List String → String → List String
  | [], cur => [cur]
  | w :: ws, cur =>
    if cur.length + 1 + w.length ≤ width then wrapGo width ws (cur ++ " " ++ w)
    else cur :: wrapGo width ws w

/-- `textwrap.fill(text, width)`: split on spaces, refill greedily,
join with newlines. -/
def textwrap_fill (text : String) (width : Nat) : String :=
  match (text.splitOn " ").filter (fun s => s ≠ "") with
  | [] => ""
  | w :: ws => String.intercalate "\n" (wrapGo width ws w)

/-- The exact text `float2mozzi` writes to the output file, as the
concatenation of its `fout.write` calls in source order (source lines
69-109), for an integer-valued table (the values written are
`str(int)`). -/
def float2mozzi_header (tablename : String) (output_bits : Nat)
    (sample_rate : ℤ) (num_cells : Nat) (out_values : List ℤ) : String :=
  "#ifndef " ++ tablename ++ "_H_\n" ++
  "#define " ++ tablename ++ "_H_\n\n" ++
  "#include <Arduino.h>\n" ++
  "#include \"mozzi_pgmspace.h\"\n\n" ++
  "#define " ++ tablename ++ "_NUM_CELLS " ++ toString num_cells ++ "\n" ++
  "#define " ++ tablename ++ "_SAMPLERATE " ++ toString sample_rate ++ "\n\n" ++
  textwrap_fill
    ("CONSTTABLE_STORAGE(int" ++ toString output_bits ++ "_t) " ++ tablename
      ++ "_DATA [] = \x7b"
      ++ String.intercalate ", " (out_values.map (fun v => toString v))
      ++ "\x7d;") 80 ++
  "\n\n" ++
  "#endif /* " ++ tablename ++ "_H_ */\n"

/-- The header format as the specification describes it, section by
section: guard open, the two fixed include lines, the two macros, the
storage-qualified array declaration with comma-joined decimal values
wrapped to 80 columns, and the guard close.  Written from the spec's
words, to be compared with `float2mozzi_header` (which follows the
source's write calls). -/
def spec_header_text (name : String) (output_bits : Nat)
    (sample_rate : ℤ) (cell_count : Nat) (values : List ℤ) : String :=
  let guard_open := "#ifndef " ++ name ++ "_H_\n" ++ "#define " ++ name ++ "_H_\n\n"
  let includes := "#include <Arduino.h>\n" ++ "#include \"mozzi_pgmspace.h\"\n\n"
  let macros := "#define " ++ name ++ "_NUM_CELLS " ++ toString cell_count ++ "\n"
    ++ "#define " ++ name ++ "_SAMPLERATE " ++ toString sample_rate ++ "\n\n"
  let array_decl := textwrap_fill
    ("CONSTTABLE_STORAGE(int" ++ toString output_bits ++ "_t) " ++ name
      ++ "_DATA [] = \x7b"
      ++ String.intercalate ", " (values.map (fun v => toString v))
      ++ "\x7d;") 80 ++ "\n\n"
  let guard_close := "#endif /* " ++ name ++ "_H_ */\n"
  guard_open ++ includes ++ macros ++ array_decl ++ guard_close

/-- The symmetry remap formula as the specification states it:
`out = (v - inMin) * (outMax - outMin) / (inMax - inMin) + outMin` with
`inMin = -maxOut - 1`, `inMax = maxOut`, `outMin = -maxOut`,
`outMax = maxOut`. -/
def symRemap (max_out : ℤ) (v : ℚ) : ℚ :=
  (v - (-((max_out : ℤ) : ℚ) - 1)) * (((max_out : ℤ) : ℚ) - -((max_out : ℤ) : ℚ))
    / (((max_out : ℤ) : ℚ) - (-((max_out : ℤ) : ℚ) - 1)) + -((max_out : ℤ) : ℚ)

/-! ### Helper lemmas -/

theorem pytrunc_nonneg_eval (q : ℚ) (z : ℤ) (hq : 0 ≤ q)
    (h1 : (z : ℚ) ≤ q) (h2 : q < (z : ℚ) + 1) : pytrunc q = z := by
  rw [pytrunc, if_pos hq]
  exact Int.floor_eq_iff.mpr ⟨by exact_mod_cast h1, by exact_mod_cast h2⟩

theorem pytrunc_neg_eval (q : ℚ) (z : ℤ) (hq : ¬ 0 ≤ q)
    (h1 : (z : ℚ) - 1 < q) (h2 : q ≤ (z : ℚ)) : pytrunc q = z := by
  rw [pytrunc, if_neg hq]
  exact Int.ceil_eq_iff.mpr ⟨by exact_mod_cast h1, by exact_mod_cast h2⟩

theorem rescale_float_eval (output_bits : Nat) (v : ℚ) (z : ℤ)
    (h : pytrunc (v * ((max_output_value output_bits : ℤ) : ℚ) + 1/2) = z) :
    rescale "float" output_bits v = (z : ℚ) := by
  show ((pytrunc (v * ((max_output_value output_bits : ℤ) : ℚ) + 1/2) : ℤ) : ℚ) = (z : ℚ)
  exact_mod_cast h

theorem max_output_value_eq (output_bits : Nat) :
    max_output_value output_bits = 2 * 2 ^ (output_bits - 2) := by
  simp [max_output_value, Nat.shiftLeft_eq]

theorem max_output_value_pos (output_bits : Nat) :
    0 < max_output_value output_bits := by
  rw [max_output_value_eq]
  positivity

/-- Because `cnt_33` is re-bound to `0` at the top of every loop
iteration, the `cnt_33 == 3` branch is dead: the loop is exactly a map of
`rescale` over the input values, and the choice stream is never
consumed. -/
theorem convertGo_eq_map (input_encoding : String) (output_bits : Nat)
    (xs : List ℚ) (choices : List ℤ) :
    convertGo input_encoding output_bits xs choices =
      xs.map (rescale input_encoding output_bits) := by
  induction xs generalizing choices with
  | nil => rfl
  | cons v rest ih =>
    by_cases h : v = (33 : ℚ) <;> simp [convertGo, h, ih]

theorem rescale_int (output_bits : Nat) (v : ℚ) :
    rescale "int" output_bits v = v := by
  simp [rescale]

theorem decodeGo_length (itemsize : Nat) (hk : 0 < itemsize) :
    ∀ (fuel : Nat) (bytes : List Nat), bytes.length ≤ fuel →
      (decodeGo itemsize fuel bytes).length = bytes.length / itemsize := by
  intro fuel
  induction fuel with
  | zero =>
    intro bytes hb
    have : bytes.length = 0 := Nat.le_zero.mp hb
    simp [decodeGo, this, Nat.zero_div]
  | succ fuel ih =>
    intro bytes hb
    by_cases h : itemsize ≤ bytes.length
    · have hdrop : (bytes.drop itemsize).length = bytes.length - itemsize := by
        simp [List.length_drop]
      have hfuel : (bytes.drop itemsize).length ≤ fuel := by
        rw [hdrop]
        omega
      have := ih (bytes.drop itemsize) hfuel
      simp only [decodeGo, if_pos (And.intro hk h), List.length_cons, this, hdrop]
      exact (Nat.div_eq_sub_div hk h).symm
    · have hlt : bytes.length < itemsize := Nat.lt_of_not_le h
      simp [decodeGo, h, Nat.div_eq_of_lt hlt]

theorem decodeInts_length (itemsize : Nat) (bytes : List Nat) (hk : 0 < itemsize) :
    (decodeInts itemsize bytes).length = bytes.length / itemsize :=
  decodeGo_length itemsize hk bytes.length bytes (Nat.le_refl _)

/-- Truncation toward zero stays within `[-m, m]` whenever its argument
lies in `[-m + 1/2, m + 1/2]` for a nonnegative integer `m`. -/
theorem pytrunc_bound (m : ℤ) (q : ℚ) (hm : 0 ≤ m)
    (h1 : -((m : ℤ) : ℚ) + 1/2 ≤ q) (h2 : q ≤ ((m : ℤ) : ℚ) + 1/2) :
    -m ≤ pytrunc q ∧ pytrunc q ≤ m := by
  unfold pytrunc
  by_cases hq : 0 ≤ q
  · rw [if_pos hq]
    constructor
    · have h0 : 0 ≤ ⌊q⌋ := Int.floor_nonneg.mpr hq
      omega
    · have hlt : q < ((m + 1 : ℤ) : ℚ) := by
        push_cast
        linarith
      have := Int.floor_lt.mpr hlt
      omega
  · rw [if_neg hq]
    have hq' : q < 0 := lt_of_not_le hq
    constructor
    · have hle : q ≤ ((⌈q⌉ : ℤ) : ℚ) := Int.le_ceil q
      have : (((-m) : ℤ) : ℚ) < ((⌈q⌉ : ℤ) : ℚ) := by
        push_cast
        push_cast at hle h1
        linarith
      exact_mod_cast le_of_lt this
    · have : ⌈q⌉ ≤ 0 := Int.ceil_le.mpr (le_of_lt (by exact_mod_cast hq'))
      omega

/-! ### Claims -/

/-- C1: the claim says the dither pass turns `[33,33,33]` into a
4-element list whose appended fourth element comes from the random
choice, and inserts exactly once for `[33,33,34,33,33,33]`.  The code
re-binds `cnt_33 = 0` at the top of every loop iteration, so no
insertion ever happens: evaluating the conversion loop at both failing
inputs (for every possible random-choice stream) returns the input
unchanged, with length 3 (not 4) and 6 (with zero insertions). -/
theorem C1_dither_never_inserted (choices : List ℤ) :
    convertGo "int" 8 [33, 33, 33] choices = [33, 33, 33]
      ∧ (convertGo "int" 8 [33, 33, 33] choices).length = 3
      ∧ convertGo "int" 8 [33, 33, 34, 33, 33, 33] choices
        = [33, 33, 34, 33, 33, 33] := by
  refine ⟨?_, ?_, ?_⟩ <;> simp [convertGo_eq_map, rescale_int]

/-- C2: for every input sequence, encoding, output width and
random-choice stream, the conversion loop is exactly a map of the
rescaler: one output element per input value, no dither element ever
appended (output length equals input length), and the random-choice
stream is never consumed (the result does not depend on it). -/
theorem C2_loop_is_map_no_dither (input_encoding : String) (output_bits : Nat)
    (xs : List ℚ) (choices : List ℤ) :
    convertGo input_encoding output_bits xs choices
        = xs.map (rescale input_encoding output_bits)
      ∧ (convertGo input_encoding output_bits xs choices).length = xs.length
      ∧ convertGo input_encoding output_bits xs choices
        = convertGo input_encoding output_bits xs [] := by
  refine ⟨convertGo_eq_map .., ?_, ?_⟩ <;> simp [convertGo_eq_map]

/-- C3: the claim says that for the 8-bit integer input file with bytes
`[10, -5, 33, 33, 33]` (raw bytes `[10, 251, 33, 33, 33]`) and default
flags the emitted `NUM_CELLS` is 6 and the array has 6 elements ending
in `33` followed by `32` or `34`.  Evaluating the pipeline at that input
(for every random-choice stream): `NUM_CELLS` is 5 and the array is the
5 decoded values, ending in `33, 33` — the dither insertion never
happens. -/
theorem C3_num_cells_at_failing_input (choices : List ℤ) :
    float2mozzi_values "int" 8 8 [10, 251, 33, 33, 33] choices false
      = (5, [10, -5, 33, 33, 33]) := by
  simp [float2mozzi_values, convertGo_eq_map, rescale_int, decodeInts]
  decide

/-- C4: for float input encoding the rescaled value is
`truncate(value * maxOut + 0.5)` with `maxOut = 2 << (outputBits - 2)`
(so `maxOut = 128` for 8-bit output); input `1.0` rescales to `128` and
input `-1.0` to `-127`; for integer input encoding the value passes
through unchanged. -/
theorem C4_rescaler_formula :
    (∀ (output_bits : Nat) (v : ℚ),
        rescale "float" output_bits v
          = ((pytrunc (v * ((max_output_value output_bits : ℤ) : ℚ) + 1/2) : ℤ) : ℚ))
      ∧ (∀ output_bits : Nat,
          max_output_value output_bits = 2 * 2 ^ (output_bits - 2))
      ∧ max_output_value 8 = 128
      ∧ rescale "float" 8 1 = 128
      ∧ rescale "float" 8 (-1) = -127
      ∧ (∀ (output_bits : Nat) (v : ℚ), rescale "int" output_bits v = v) := by
  refine ⟨fun b v => rescale_float_eval b v _ rfl, max_output_value_eq, ?_, ?_, ?_, ?_⟩
  · norm_num [max_output_value_eq]
  · refine rescale_float_eval 8 1 128 (pytrunc_nonneg_eval _ _ ?_ ?_ ?_)
      <;> norm_num [max_output_value_eq]
  · refine rescale_float_eval 8 (-1) (-127) (pytrunc_neg_eval _ _ ?_ ?_ ?_)
      <;> norm_num [max_output_value_eq]
  · exact fun b v => rescale_int b v

/-- C5 counterexample: the claim says every value of the
ConversionResult fits `[-2^(output_bits-1), 2^(output_bits-1)-1]` for
every input and flag setting.  For float encoding and 8-bit output the
input `1.0` converts to `128`, which exceeds `2^7 - 1 = 127`. -/
theorem C5_counterexample :
    convertGo "float" 8 [1] [] = [128]
      ∧ ¬ ((128 : ℚ) ≤ 2 ^ (8 - 1) - 1) := by
  constructor
  · have h : rescale "float" 8 1 = 128 := by
      refine rescale_float_eval 8 1 128 (pytrunc_nonneg_eval _ _ ?_ ?_ ?_)
        <;> norm_num [max_output_value_eq]
    simp [convertGo_eq_map, h]
  · norm_num

/-- C5 amended: for float input encoding with inputs in `[-1, 1]`, every
value of the conversion loop's output is an integer in the asymmetric
range `[-maxOut, maxOut]` with `maxOut = 2 << (output_bits - 2)` (which
includes `maxOut = 2^(output_bits-1)` itself, one above the conventional
signed maximum); integer-encoded input passes through unchanged and is
not constrained to the range. -/
theorem C5_amended_output_range (output_bits : Nat) (xs : List ℚ)
    (choices : List ℤ) (hin : ∀ v ∈ xs, -1 ≤ v ∧ v ≤ 1) :
    ∀ y ∈ convertGo "float" output_bits xs choices,
      (∃ z : ℤ, y = (z : ℚ))
        ∧ -((max_output_value output_bits : ℤ) : ℚ) ≤ y
        ∧ y ≤ ((max_output_value output_bits : ℤ) : ℚ) := by
  intro y hy
  rw [convertGo_eq_map] at hy
  obtain ⟨v, hv, rfl⟩ := List.mem_map.mp hy
  obtain ⟨hv1, hv2⟩ := hin v hv
  have hmpos : 0 < max_output_value output_bits := max_output_value_pos output_bits
  have hm0 : (0 : ℚ) < ((max_output_value output_bits : ℤ) : ℚ) := by exact_mod_cast hmpos
  rw [rescale_float_eval output_bits v _ rfl]
  have hb := pytrunc_bound (max_output_value output_bits)
    (v * ((max_output_value output_bits : ℤ) : ℚ) + 1/2) (le_of_lt hmpos) ?h1 ?h2
  case h1 => nlinarith
  case h2 => nlinarith
  exact ⟨⟨_, rfl⟩, by exact_mod_cast hb.1, by exact_mod_cast hb.2⟩

/-- Witness for C5 amended, at 8-bit output, input list `[1.0]`. -/
theorem C5_amended_output_range_witness :
    (∀ v ∈ ([1] : List ℚ), -1 ≤ v ∧ v ≤ 1)
      ∧ ((∃ z : ℤ, (128 : ℚ) = (z : ℚ))
          ∧ -((max_output_value 8 : ℤ) : ℚ) ≤ (128 : ℚ)
          ∧ (128 : ℚ) ≤ ((max_output_value 8 : ℤ) : ℚ)) := by
  have hin : ∀ v ∈ ([1] : List ℚ), -1 ≤ v ∧ v ≤ 1 := by norm_num
  have hmem : (128 : ℚ) ∈ convertGo "float" 8 [1] [] := by
    have h : rescale "float" 8 1 = 128 := by
      refine rescale_float_eval 8 1 128 (pytrunc_nonneg_eval _ _ ?_ ?_ ?_)
        <;> norm_num [max_output_value_eq]
    simp [convertGo_eq_map, h]
  exact ⟨hin, C5_amended_output_range 8 [1] [] hin 128 hmem⟩

/-- C6 counterexample: the claim says that for 8-bit output any sequence
containing `-129` normalizes to values all within `[-128, 128]`.  The
sequence `[-129, 1000]` contains `-129`, but its second element remaps
to `256128/257 ≈ 996.6 > 128`. -/
theorem C6_counterexample :
    (-129 : ℚ) ∈ ([-129, 1000] : List ℚ)
      ∧ make_symmetrical_pass 128 [-129, 1000] = [-128, 256128 / 257]
      ∧ ¬ ((256128 / 257 : ℚ) ≤ 128) := by
  refine ⟨by decide, ?_, by norm_num⟩
  norm_num [make_symmetrical_pass]

/-- C6 amended: when the triggering value `-maxOut - 1` is present the
whole sequence is remapped element-wise by the claimed interpolation
formula; for 8-bit output (`maxOut = 128`) the value `-129` remaps to
exactly `-128`, and every element lying in the domain `[-129, 128]`
remaps into `[-128, 128]` (elements outside the domain can land outside
that range); when the triggering value is absent the sequence passes
through unchanged. -/
theorem C6_amended_symmetry (max_out : ℤ) (xs : List ℚ) :
    ((-((max_out : ℤ) : ℚ) - 1) ∈ xs →
        make_symmetrical_pass max_out xs = xs.map (symRemap max_out))
      ∧ symRemap 128 (-129) = -128
      ∧ (∀ v : ℚ, -129 ≤ v → v ≤ 128 →
          -128 ≤ symRemap 128 v ∧ symRemap 128 v ≤ 128)
      ∧ ((-((max_out : ℤ) : ℚ) - 1) ∉ xs →
          make_symmetrical_pass max_out xs = xs) := by
  refine ⟨fun h => ?_, ?_, fun v h1 h2 => ?_, fun h => ?_⟩
  · simp only [make_symmetrical_pass]
    rw [if_pos h]
    rfl
  · norm_num [symRemap]
  · have hv : symRemap 128 v = (v + 129) * 256 / 257 - 128 := by
      rw [symRemap]
      push_cast
      ring
    rw [hv]
    constructor <;> linarith
  · simp only [make_symmetrical_pass]
    rw [if_neg h]

/-- Witness for C6 amended: a sequence containing the trigger is fully
remapped, `33` lands inside `[-128, 128]`, and a trigger-free sequence
passes through unchanged. -/
theorem C6_amended_symmetry_witness :
    make_symmetrical_pass 128 [-129, 33] = ([-129, 33] : List ℚ).map (symRemap 128)
      ∧ (-128 ≤ symRemap 128 33 ∧ symRemap 128 33 ≤ 128)
      ∧ make_symmetrical_pass 128 [5] = [5] := by
  refine ⟨(C6_amended_symmetry 128 [-129, 33]).1 ?_,
    (C6_amended_symmetry 128 [-129, 33]).2.2.1 33 (by norm_num) (by norm_num),
    (C6_amended_symmetry 128 [5]).2.2.2 ?_⟩
  · push_cast
    norm_num
  · push_cast
    norm_num

/-- C7: for every byte buffer and every valid input bit width (8, 16 or
32), the decoder yields exactly `floor(byteLength / (bits/8))` samples —
the same count `num_input_values` the source computes — and the trailing
partial sample is dropped (the decoder is a total function; no error
value exists in its type). -/
theorem C7_decoder_length (input_bits : Nat) (bytes : List Nat)
    (h : input_bits = 8 ∨ input_bits = 16 ∨ input_bits = 32) :
    (decodeInts (input_bits / 8) bytes).length = bytes.length / (input_bits / 8)
      ∧ (decodeInts (input_bits / 8) bytes).length
        = num_input_values input_bits bytes.length := by
  have hk : 0 < input_bits / 8 := by rcases h with h | h | h <;> subst h <;> decide
  exact ⟨decodeInts_length _ bytes hk, decodeInts_length _ bytes hk⟩

/-- Witness for C7, at 16-bit input and a 3-byte buffer: one sample, the
trailing byte dropped. -/
theorem C7_decoder_length_witness :
    ((16 : Nat) = 8 ∨ (16 : Nat) = 16 ∨ (16 : Nat) = 32)
      ∧ (decodeInts (16 / 8) [1, 2, 3]).length
        = ([1, 2, 3] : List Nat).length / (16 / 8) := by
  have h : (16 : Nat) = 8 ∨ (16 : Nat) = 16 ∨ (16 : Nat) = 32 := Or.inr (Or.inl rfl)
  exact ⟨h, (C7_decoder_length 16 [1, 2, 3] h).1⟩

/-- C8 counterexample: the claim says unsupported bits/encoding
combinations such as `float` with 8-bit input are rejected before any
file I/O.  The argument parser accepts that combination (each option is
validated only against its own choices) and the conversion proceeds:
the byte `251` is decoded as the signed byte `-5` via array type `"b"`
and run through the float rescaling formula, yielding `-639`. -/
theorem C8_counterexample :
    args_accepted "float" 8 8 = true
      ∧ array_type "float" 8 = "b"
      ∧ float2mozzi_values "float" 8 8 [251] [] false = (1, [-639]) := by
  refine ⟨by decide, by decide, ?_⟩
  have hdec : decodeInts 1 [251] = [-5] := by decide
  have hresc : rescale "float" 8 (-5) = -639 := by
    refine rescale_float_eval 8 (-5) (-639) (pytrunc_neg_eval _ _ ?_ ?_ ?_)
      <;> norm_num [max_output_value_eq]
  simp [float2mozzi_values, hdec, convertGo_eq_map, hresc]

/-- C8 amended: validation happens per-option only (encoding against
its choices, each bit width against its choices), before any file I/O;
no combination check exists, so `float` with 8- or 16-bit input is
accepted and processed with the integer array types `"b"`/`"h"`, while
individually invalid values are rejected. -/
theorem C8_amended_validation :
    args_accepted "float" 8 8 = true
      ∧ args_accepted "float" 16 8 = true
      ∧ args_accepted "double" 8 8 = false
      ∧ args_accepted "float" 12 8 = false
      ∧ array_type "float" 8 = "b"
      ∧ array_type "float" 16 = "h"
      ∧ array_type "float" 32 = "f"
      ∧ (∀ (input_encoding : String) (input_bits output_bits : Nat),
          args_accepted input_encoding input_bits output_bits
            = ((input_encoding = "float" || input_encoding = "int")
                && (input_bits = 8 || input_bits = 16 || input_bits = 32)
                && (output_bits = 8 || output_bits = 16 || output_bits = 32))) := by
  refine ⟨by decide, by decide, by decide, by decide, by decide, by decide, by decide,
    fun e b ob => rfl⟩

/-- C9: with `--make-symmetrical` off, for every input whose decoded
sequence has no three consecutive `33`s, two runs with different
random-choice streams produce identical results (randomness never
influences the output). -/
theorem C9_determinism (input_encoding : String) (input_bits output_bits : Nat)
    (bytes : List Nat) (cs1 cs2 : List ℤ)
    (h : hasTriple33 ((decodeInts (input_bits / 8) bytes).map
          (fun z => ((z : ℤ) : ℚ))) = false) :
    float2mozzi_values input_encoding input_bits output_bits bytes cs1 false
      = float2mozzi_values input_encoding input_bits output_bits bytes cs2 false := by
  simp [float2mozzi_values, convertGo_eq_map]

/-- Witness for C9: byte input `[1, 33, 33]`, streams `[32]` and
`[34]`. -/
theorem C9_determinism_witness :
    hasTriple33 ((decodeInts (8 / 8) [1, 33, 33]).map (fun z => ((z : ℤ) : ℚ))) = false
      ∧ float2mozzi_values "int" 8 8 [1, 33, 33] [32] false
        = float2mozzi_values "int" 8 8 [1, 33, 33] [34] false := by
  refine ⟨?_, C9_determinism "int" 8 8 [1, 33, 33] [32] [34] ?_⟩ <;> decide

/-- C10: the emitted header text is exactly the spec's format — guard
open, the two fixed include lines, the `NUM_CELLS` and `SAMPLERATE`
macros, one storage-qualified array declaration with the comma-joined
decimal values wrapped to 80 columns, and the guard close — with the
table name derived once (uppercase, hyphens to underscores) and used
for guard, macros and array identifier alike. -/
theorem C10_header_format (stem : String) (output_bits : Nat)
    (sample_rate : ℤ) (num_cells : Nat) (out_values : List ℤ) :
    float2mozzi_header (derive_tablename stem) output_bits sample_rate
        num_cells out_values
      = spec_header_text (derive_tablename stem) output_bits sample_rate
          num_cells out_values
      ∧ derive_tablename stem = (stem.replace "-" "_").toUpper := by
  constructor
  · simp only [float2mozzi_header, spec_header_text, String.append_assoc]
  · rfl

end Audio2Mozzi
